import Mathlib

/-!
Verification of the B-spline fitting pipeline of the SPLINTER library
(src/src/bspline_builder.cpp): the second-order finite-difference matrix
builder, the regularized least-squares system assembly, the sparse/dense
solver dispatch, and the validation control flow of BSpline::Builder::fit.

Modelling conventions:
* Floating-point doubles are idealized as exact rational arithmetic (ℚ).
* Eigen sparse matrices are represented by the list of their rows in
  insertion order; each row is the list of its (column, value) entries.
* Dense matrices are Mathlib matrices over ℚ.
* Code outside src/ (the DataTable, the BSpline basis engine, the knot
  utilities and linear solvers) is abstracted: its outcomes are parameters
  of the model, or definitions explicitly marked as modelled from the spec.
-/

namespace Splinter

/-- Error kinds of the fitting pipeline (spec section 7).  The C++ source
throws a single `Exception` type; the five kinds below correspond to the
five distinct throw sites reachable from `BSpline::Builder::fit`. -/
inductive BuilderError where
  | dimensionMismatch
  | invalidParameter
  | inconsistentConfiguration
  | invalidConfiguration
  | solveFailure
deriving DecidableEq

deriving instance DecidableEq for Except

/-- The `Smoothing` enumeration consumed by `BSpline::Builder::fit`. -/
inductive Smoothing where
  | NONE
  | IDENTITY
  | PSPLINE
deriving DecidableEq

/-- Observable work steps of a fit call, used to model the order of matrix
construction and solver attempts relative to the throw sites. -/
inductive FitEvent where
  | knotVectors
  | basisMatrix
  | differenceMatrix
  | sparseSolve
  | denseSolve
deriving DecidableEq

/-! ## Second-order finite-difference matrix
Embedding of `BSpline::Builder::getSecondOrderFiniteDifferenceMatrix`
(bspline_builder.cpp lines 219-315).  The function receives the
per-variable basis-function counts, reverses them into `dims`, checks that
every count is at least 3, and then inserts, block by block, rows holding
the centered stencil `1, -2, 1` with stride `leftProd` (the product of the
`dims` entries before the block's dimension). -/

/-- The three entries `D.insert(i,k) = 1; D.insert(i,k+s) = -2;
D.insert(i,k+2*s) = 1` written for one row `i` of `D` (lines 286-291 for
the first dimension, lines 299-304 otherwise, where `s = leftProd`). -/
def stencilRow (k s : Nat) : List (Nat × Int) :=
  [(k, 1), (k + s, -2), (k + 2 * s, 1)]

/-- Embeds `leftProd` of lines 264-269: the product of `dims[0] * ... * dims[d-1]`. -/
def leftProd (dims : List Nat) (d : Nat) : Nat := (dims.take d).prod

/-- Embeds `rightProd` of lines 265-273: the product of `dims[d+1] * ... `. -/
def rightProd (dims : List Nat) (d : Nat) : Nat := (dims.drop (d + 1)).prod

/-- The rows inserted for the block of dimension `d` (loop body at lines
276-309): for each subblock `j < rightProd` and center position
`l < dims[d] - 2`, one row when `d = 0` (lines 284-293) and `leftProd`
rows otherwise (lines 296-306), each holding the stencil with stride
`leftProd` starting at column `j*leftProd*dims[d] + l*leftProd + n`. -/
def blockRows (dims : List Nat) (d : Nat) : List (List (Nat × Int)) :=
  (List.range (rightProd dims d)).flatMap (fun j =>
    (List.range (dims.getD d 0 - 2)).flatMap (fun l =>
      if d = 0 then
        [stencilRow (j * (leftProd dims d * dims.getD d 0) + l) (leftProd dims d)]
      else
        (List.range (leftProd dims d)).map (fun n =>
          stencilRow (j * (leftProd dims d * dims.getD d 0) + l * leftProd dims d + n)
            (leftProd dims d))))

/-- The starting columns of the stencils of one block, in emission order.
`blockRows` equals the stencil rows over these bases (the `d = 0` special
case of the source collapses to the general form because `leftProd` is 1
there); this reformulation is convenient for counting entries. -/
def blockBases (dims : List Nat) (d : Nat) : List Nat :=
  (List.range (rightProd dims d)).flatMap (fun j =>
    (List.range (dims.getD d 0 - 2)).flatMap (fun l =>
      (List.range (leftProd dims d)).map (fun n =>
        j * (leftProd dims d * dims.getD d 0) + l * leftProd dims d + n)))

/-- All rows of `D` in insertion order: the per-variable counts are first
reversed into `dims` (line 232), then one block per dimension is emitted
(loop at line 261). -/
def finiteDifferenceRows (counts : List Nat) : List (List (Nat × Int)) :=
  (List.range counts.reverse.length).flatMap (fun d => blockRows counts.reverse d)

/-- The full `getSecondOrderFiniteDifferenceMatrix`: throws (here: returns an error)
when some variable has fewer than three basis functions (lines 234-236),
otherwise builds the row list above. -/
def getSecondOrderFiniteDifferenceMatrix (counts : List Nat) :
    Except BuilderError (List (List (Nat × Int))) :=
  if counts.any (fun c => c < 3) then Except.error BuilderError.invalidConfiguration
  else Except.ok (finiteDifferenceRows counts)

/-- The total row count asserted by the spec: the sum over dimensions `d` of
`(n_d - 2) * (product of the other counts)`, phrased over the original
(unreversed) count list; the product over `j ≠ d` is split as
`leftProd * rightProd`. -/
def secondOrderRowCount (counts : List Nat) : Nat :=
  ∑ d in Finset.range counts.length,
    (counts.getD d 0 - 2) * (leftProd counts d * rightProd counts d)

/-- The stride the claim attributes to dimension `d`: the stride of `n_d`
in a row-major flattening of the reversed count list.  Original dimension
`d` (0-based) sits at position `k - 1 - d` of the reversed list, so the
sizes after it are `n_(d-1), ..., n_0` and the stride is the product of
the counts before `d`. -/
def claimedReversedStride (counts : List Nat) (d : Nat) : Nat := (counts.take d).prod

/-- The number of nonzero entries stored in column `c`: all inserted values
are 1 or -2, hence nonzero, and within one row the three columns are
distinct whenever the stride is positive. -/
def colNnz (rows : List (List (Nat × Int))) (c : Nat) : Nat :=
  (rows.map (fun r => (r.filter (fun e => e.1 = c)).length)).sum

/-! ## Control-flow model of fit and computeControlPoints
The pipeline of `fit` (lines 34-61) and `computeControlPoints`
(lines 73-175), with the external collaborators abstracted: the shapes of
the data table and of the constructed B-spline are inputs, and the
success of the two external linear solvers is a pair of booleans.  The
model records which matrices are constructed and which solvers are
attempted, in program order, together with the thrown error (if any). -/

/-- Configuration held by the `Builder`: the construction-time dimensions
and the number of configured degrees (`_degrees.size()`). -/
structure FitConfig where
  dimX : Nat
  dimY : Nat
  degreesLength : Nat

/-- Abstracted shape of the data table and of the external collaborators:
the dimensions the table reports, its sample count, the per-variable
basis-function counts of the constructed B-spline, and the outcomes of
the external sparse and dense solver calls. -/
structure FitExternals where
  dataDimX : Nat
  dataDimY : Nat
  numSamples : Nat
  numBasisFunctionsPerVariable : List Nat
  sparseSolveSucceeds : Bool
  denseSolveSucceeds : Bool

/-- Modelled from the spec: `BSpline::getNumBasisFunctions` (the BSpline
class is not under src/).  Spec section 8: the total number of basis
functions equals the product of the per-dimension basis-function counts. -/
def totalBasisFunctions (ext : FitExternals) : Nat :=
  ext.numBasisFunctionsPerVariable.prod

/-- The solver dispatch of `computeControlPoints` (lines 140-172):
`solveAsDense = numEquations < maxNumEquations` with
`maxNumEquations = 100`; when not dense, the sparse solver runs first and
`solveAsDense` becomes the negation of its success; the dense solver runs
whenever `solveAsDense` holds and its failure throws (line 170). -/
def solveStep (numEquations : Nat) (sparseOk denseOk : Bool) :
    List FitEvent × Except BuilderError Unit :=
  if numEquations < 100 then
    if denseOk then ([FitEvent.denseSolve], Except.ok ())
    else ([FitEvent.denseSolve], Except.error BuilderError.solveFailure)
  else if sparseOk then ([FitEvent.sparseSolve], Except.ok ())
  else if denseOk then ([FitEvent.sparseSolve, FitEvent.denseSolve], Except.ok ())
  else ([FitEvent.sparseSolve, FitEvent.denseSolve], Except.error BuilderError.solveFailure)

/-- Control flow of `computeControlPoints` (lines 73-175): the basis
matrix `B` is assembled first (line 78), then the smoothing branch runs —
under PSPLINE the difference-matrix builder is invoked (line 131) and may
throw before `D` is built — and finally the system is solved, with
`numEquations = A.rows()`: the sample count under NONE (where `A = B`)
and the total basis-function count under IDENTITY and PSPLINE. -/
def computeControlPointsFlow (ext : FitExternals) (smoothing : Smoothing) :
    List FitEvent × Except BuilderError Unit :=
  match smoothing with
  | Smoothing.NONE =>
      let s := solveStep ext.numSamples ext.sparseSolveSucceeds ext.denseSolveSucceeds
      (FitEvent.basisMatrix :: s.1, s.2)
  | Smoothing.IDENTITY =>
      let s := solveStep (totalBasisFunctions ext) ext.sparseSolveSucceeds ext.denseSolveSucceeds
      (FitEvent.basisMatrix :: s.1, s.2)
  | Smoothing.PSPLINE =>
      if ext.numBasisFunctionsPerVariable.any (fun c => c < 3) then
        ([FitEvent.basisMatrix], Except.error BuilderError.invalidConfiguration)
      else
        let s := solveStep (totalBasisFunctions ext) ext.sparseSolveSucceeds ext.denseSolveSucceeds
        (FitEvent.basisMatrix :: FitEvent.differenceMatrix :: s.1, s.2)

/-- Control flow of `fit` (lines 34-61): the three validations at lines
36-43, then `computeKnotVectors` whose first statement (lines 320-321)
throws when the degree count disagrees with `dimX`, then the knot vectors
are built, the spline shell is constructed, and the control points are
computed.  `alpha` is only compared against zero here; its value does not
influence the control flow afterwards. -/
def fit (cfg : FitConfig) (ext : FitExternals) (smoothing : Smoothing) (alpha : ℚ) :
    List FitEvent × Except BuilderError Unit :=
  if ext.dataDimX ≠ cfg.dimX then ([], Except.error BuilderError.dimensionMismatch)
  else if ext.dataDimY ≠ cfg.dimY then ([], Except.error BuilderError.dimensionMismatch)
  else if alpha < 0 then ([], Except.error BuilderError.invalidParameter)
  else if cfg.dimX ≠ cfg.degreesLength then
    ([], Except.error BuilderError.inconsistentConfiguration)
  else
    let s := computeControlPointsFlow ext smoothing
    (FitEvent.knotVectors :: s.1, s.2)

/-! ## Assembled linear systems
The matrix algebra of `computeControlPoints` (lines 78-138) over exact
rationals.  `B` is the `numSamples × numBasisFunctions` design matrix,
`bmat` the stacked sample outputs. -/

open Matrix

/-- System assembled under `Smoothing::NONE`: `A = B` (line 79) and the
right-hand side is the stacked sample values unchanged (line 80). -/
def assembledSystemNone {m n p : Nat} (B : Matrix (Fin m) (Fin n) ℚ)
    (bmat : Matrix (Fin m) (Fin p) ℚ) :
    Matrix (Fin m) (Fin n) ℚ × Matrix (Fin m) (Fin p) ℚ :=
  (B, bmat)

/-- System assembled under `Smoothing::IDENTITY` (lines 82-100):
`A = Bᵗ*B`, `b = Bᵗ*b`, then `A += alpha*I` with `I` the identity of
dimension `A.cols()`, i.e. the number of basis functions. -/
def assembledSystemIdentity {m n p : Nat} (B : Matrix (Fin m) (Fin n) ℚ)
    (bmat : Matrix (Fin m) (Fin p) ℚ) (alpha : ℚ) :
    Matrix (Fin n) (Fin n) ℚ × Matrix (Fin n) (Fin p) ℚ :=
  let Bt := Bᵀ
  let A := Bt * B
  let b2 := Bt * bmat
  let idMat : Matrix (Fin n) (Fin n) ℚ := 1
  (A + alpha • idMat, b2)

/-- System assembled under `Smoothing::PSPLINE` (lines 101-138):
`W` is resized to `numSamples × numSamples` and set to the identity
(lines 126-128), `D` is the second-order finite-difference matrix, and
`A = Bᵗ*W*B + alpha*Dᵗ*D`, `b = Bᵗ*W*b` (lines 134-137).  `D` is taken
as an arbitrary matrix parameter here; its structure is verified
separately on the sparse representation. -/
def assembledSystemPspline {m n p r : Nat} (B : Matrix (Fin m) (Fin n) ℚ)
    (bmat : Matrix (Fin m) (Fin p) ℚ) (alpha : ℚ) (D : Matrix (Fin r) (Fin n) ℚ) :
    Matrix (Fin n) (Fin n) ℚ × Matrix (Fin n) (Fin p) ℚ :=
  let Bt := Bᵀ
  let W : Matrix (Fin m) (Fin m) ℚ := 1
  (Bt * W * B + alpha • (Dᵀ * D), Bt * W * bmat)

/-- The coefficient matrix `Bᵗ*B + alpha*I` of the IDENTITY system in
vector form, used to state properties of single output columns. -/
def identitySystemA {m n : Nat} (B : Matrix (Fin m) (Fin n) ℚ) (alpha : ℚ) :
    Matrix (Fin n) (Fin n) ℚ :=
  Bᵀ * B + alpha • (1 : Matrix (Fin n) (Fin n) ℚ)

/-- Modelled from the spec: the dense QR solve (`DenseQR` of
linear_solvers.h, not under src/) applied to the non-square NONE system
returns a least-squares solution (spec sections 4.4 and 4.6: plain least
squares is solved via QR, which handles overdetermined systems directly).
`x` minimizes the squared residual of `B * x = y` among all vectors. -/
def isLeastSquaresSolution {m n : Nat} (B : Matrix (Fin m) (Fin n) ℚ)
    (y : Fin m → ℚ) (x : Fin n → ℚ) : Prop :=
  ∀ z : Fin n → ℚ, (B *ᵥ x - y) ⬝ᵥ (B *ᵥ x - y) ≤ (B *ᵥ z - y) ⬝ᵥ (B *ᵥ z - y)

/-! ## Default degrees -/

/-- Modelled from the spec: the default per-dimension degrees used by a
fit.  The constructor (lines 22-29) initializes `_degrees` through
`getBSplineDegrees(_dim_x, 3)`, declared in utilities.h, and the
knot-vector utilities of knot_utils.h cap the degree by the available
samples; neither file is under src/.  Spec section 6: the default degree
is `min(3, samples - 1)` in every dimension. -/
def defaultDegrees (dimX samples : Nat) : List Nat :=
  List.replicate dimX (min 3 (samples - 1))

/-! ## Supporting lemmas -/

lemma solveStep_result_cases (numEquations : Nat) (sparseOk denseOk : Bool) :
    (solveStep numEquations sparseOk denseOk).2 = Except.ok () ∨
    (solveStep numEquations sparseOk denseOk).2 = Except.error BuilderError.solveFailure := by
  unfold solveStep
  split_ifs <;> simp

lemma solveStep_failure_mem (numEquations : Nat) (sparseOk denseOk : Bool)
    (h : (solveStep numEquations sparseOk denseOk).2 = Except.error BuilderError.solveFailure) :
    FitEvent.denseSolve ∈ (solveStep numEquations sparseOk denseOk).1 := by
  unfold solveStep at h ⊢
  split_ifs at h ⊢ <;> simp_all

/-- Error phases of `computeControlPoints`: `InvalidConfiguration` leaves
only the basis matrix built, `SolveFailure` implies a dense attempt, and
no other error is possible. -/
lemma computeControlPointsFlow_phases (ext : FitExternals) (smoothing : Smoothing) :
    ((computeControlPointsFlow ext smoothing).2 = Except.error BuilderError.invalidConfiguration →
      (computeControlPointsFlow ext smoothing).1 = [FitEvent.basisMatrix]) ∧
    ((computeControlPointsFlow ext smoothing).2 = Except.error BuilderError.solveFailure →
      FitEvent.denseSolve ∈ (computeControlPointsFlow ext smoothing).1) ∧
    (∀ e, (computeControlPointsFlow ext smoothing).2 = Except.error e →
      e = BuilderError.invalidConfiguration ∨ e = BuilderError.solveFailure) := by
  rcases smoothing with _ | _ | _
  case NONE =>
    rcases solveStep_result_cases ext.numSamples ext.sparseSolveSucceeds
        ext.denseSolveSucceeds with hs | hs <;>
      refine ⟨?_, ?_, ?_⟩ <;>
        simp_all [computeControlPointsFlow] <;>
          exact solveStep_failure_mem _ _ _ hs
  case IDENTITY =>
    rcases solveStep_result_cases (totalBasisFunctions ext) ext.sparseSolveSucceeds
        ext.denseSolveSucceeds with hs | hs <;>
      refine ⟨?_, ?_, ?_⟩ <;>
        simp_all [computeControlPointsFlow] <;>
          exact solveStep_failure_mem _ _ _ hs
  case PSPLINE =>
    by_cases hany : ext.numBasisFunctionsPerVariable.any (fun c => c < 3) = true
    · refine ⟨?_, ?_, ?_⟩ <;> simp_all [computeControlPointsFlow]
    · have hany' : ext.numBasisFunctionsPerVariable.any (fun c => c < 3) = false :=
        Bool.not_eq_true _ ▸ hany
      have hfl : computeControlPointsFlow ext Smoothing.PSPLINE =
          (FitEvent.basisMatrix :: FitEvent.differenceMatrix ::
            (solveStep (totalBasisFunctions ext) ext.sparseSolveSucceeds
              ext.denseSolveSucceeds).1,
           (solveStep (totalBasisFunctions ext) ext.sparseSolveSucceeds
              ext.denseSolveSucceeds).2) := by
        simp [computeControlPointsFlow, hany']
      rcases solveStep_result_cases (totalBasisFunctions ext) ext.sparseSolveSucceeds
          ext.denseSolveSucceeds with hs | hs <;>
        rw [hfl, hs] <;>
          refine ⟨?_, ?_, ?_⟩ <;>
            simp <;>
              exact solveStep_failure_mem _ _ _ hs

lemma length_flatMap_range {α : Type} (g : Nat → List α) (k : Nat) :
    ((List.range k).flatMap g).length = ∑ i in Finset.range k, (g i).length := by
  induction k with
  | zero => simp
  | succ k ih =>
      rw [List.range_succ, List.flatMap_append, List.length_append, ih,
        Finset.sum_range_succ]
      simp

lemma take_reverse_prod (N : List Nat) (d : Nat) (h : d ≤ N.length) :
    (N.reverse.take d).prod = (N.drop (N.length - d)).prod := by
  have hsplit : N.reverse =
      (N.drop (N.length - d)).reverse ++ (N.take (N.length - d)).reverse := by
    rw [← List.reverse_append, List.take_append_drop]
  have hlen : ((N.drop (N.length - d)).reverse).length = d := by
    simp
    omega
  rw [hsplit, List.take_left' hlen, List.prod_reverse]

lemma drop_reverse_prod (N : List Nat) (d : Nat) (h : d ≤ N.length) :
    (N.reverse.drop d).prod = (N.take (N.length - d)).prod := by
  have hsplit : N.reverse =
      (N.drop (N.length - d)).reverse ++ (N.take (N.length - d)).reverse := by
    rw [← List.reverse_append, List.take_append_drop]
  have hlen : ((N.drop (N.length - d)).reverse).length = d := by
    simp
    omega
  rw [hsplit, List.drop_left' hlen, List.prod_reverse]

/-- Block `d` of the reversed list acts on original dimension
`N.length - 1 - d`, whose `leftProd` over the reversed list is the
original `rightProd` — the stride of that dimension in a row-major
flattening of the original count list. -/
lemma leftProd_reverse (N : List Nat) (d : Nat) (h : d < N.length) :
    leftProd N.reverse d = rightProd N (N.length - 1 - d) := by
  unfold leftProd rightProd
  rw [take_reverse_prod N d (le_of_lt h)]
  have harith : N.length - d = N.length - 1 - d + 1 := by omega
  rw [harith]

lemma rightProd_reverse (N : List Nat) (d : Nat) (h : d < N.length) :
    rightProd N.reverse d = leftProd N (N.length - 1 - d) := by
  unfold leftProd rightProd
  rw [drop_reverse_prod N (d + 1) (by omega)]
  have harith : N.length - (d + 1) = N.length - 1 - d := by omega
  rw [harith]

lemma getD_reverse (N : List Nat) (d : Nat) (h : d < N.length) :
    N.reverse.getD d 0 = N.getD (N.length - 1 - d) 0 := by
  have h1 : d < N.reverse.length := by simpa using h
  have h2 : N.length - 1 - d < N.length := by omega
  rw [List.getD_eq_getElem N.reverse 0 h1, List.getD_eq_getElem N 0 h2,
    List.getElem_reverse]

lemma blockRows_length (dims : List Nat) (d : Nat) :
    (blockRows dims d).length =
      rightProd dims d * ((dims.getD d 0 - 2) * leftProd dims d) := by
  have hin : ∀ j : Nat, ((List.range (dims.getD d 0 - 2)).flatMap (fun l =>
      if d = 0 then
        [stencilRow (j * (leftProd dims d * dims.getD d 0) + l) (leftProd dims d)]
      else
        (List.range (leftProd dims d)).map (fun n =>
          stencilRow (j * (leftProd dims d * dims.getD d 0) + l * leftProd dims d + n)
            (leftProd dims d)))).length = (dims.getD d 0 - 2) * leftProd dims d := by
    intro j
    rw [length_flatMap_range]
    by_cases hd : d = 0
    · subst hd
      have hlp : leftProd dims 0 = 1 := rfl
      simp [hlp]
    · simp [hd]
  unfold blockRows
  rw [length_flatMap_range, Finset.sum_congr rfl (fun j _ => hin j),
    Finset.sum_const, Finset.card_range, smul_eq_mul]

/-- The number of inserted rows matches the spec's count formula. -/
lemma finiteDifferenceRows_length (N : List Nat) :
    (finiteDifferenceRows N).length = secondOrderRowCount N := by
  unfold finiteDifferenceRows secondOrderRowCount
  rw [length_flatMap_range, List.length_reverse]
  have hstep : ∀ i ∈ Finset.range N.length,
      (blockRows N.reverse i).length =
        (fun d => (N.getD d 0 - 2) * (leftProd N d * rightProd N d))
          (N.length - 1 - i) := by
    intro i hi
    have hi' : i < N.length := Finset.mem_range.mp hi
    rw [blockRows_length, leftProd_reverse N i hi', rightProd_reverse N i hi',
      getD_reverse N i hi']
    ring
  rw [Finset.sum_congr rfl hstep]
  exact Finset.sum_range_reflect
    (fun d => (N.getD d 0 - 2) * (leftProd N d * rightProd N d)) N.length

/-- Every inserted row is a `1, -2, 1` stencil along some original
dimension `d`, with the stride of dimension `d` in a row-major flattening
of the original count list, starting at the flattened index
`hi * (n_d * stride) + l * stride + lo` of the leftmost stencil position
(`hi` indexes the dimensions before `d`, `lo` those after `d`, and `l` is
the center position minus one along `d`). -/
lemma mem_finiteDifferenceRows (N : List Nat) (row : List (Nat × Int))
    (hrow : row ∈ finiteDifferenceRows N) :
    ∃ d, d < N.length ∧ ∃ hi l lo,
      hi < leftProd N d ∧ l + 2 < N.getD d 0 ∧ lo < rightProd N d ∧
      row = stencilRow (hi * (N.getD d 0 * rightProd N d) + l * rightProd N d + lo)
        (rightProd N d) := by
  unfold finiteDifferenceRows at hrow
  rcases List.mem_flatMap.mp hrow with ⟨dr, hdr, hrow1⟩
  rw [List.mem_range] at hdr
  have hdr' : dr < N.length := by simpa using hdr
  unfold blockRows at hrow1
  rcases List.mem_flatMap.mp hrow1 with ⟨j, hj, hrow2⟩
  rcases List.mem_flatMap.mp hrow2 with ⟨l, hl, hrow3⟩
  rw [List.mem_range] at hj hl
  have hrp : rightProd N.reverse dr = leftProd N (N.length - 1 - dr) :=
    rightProd_reverse N dr hdr'
  have hlp : leftProd N.reverse dr = rightProd N (N.length - 1 - dr) :=
    leftProd_reverse N dr hdr'
  have hget : N.reverse.getD dr 0 = N.getD (N.length - 1 - dr) 0 :=
    getD_reverse N dr hdr'
  by_cases hd0 : dr = 0
  · subst hd0
    have hrow3' : row = stencilRow (j * N.reverse.getD 0 0 + l) 1 := by
      simpa [leftProd] using hrow3
    have e1 : rightProd N (N.length - 1) = 1 := by
      simpa [leftProd] using hlp.symm
    have e2 : N.getD (N.length - 1) 0 = N.reverse.getD 0 0 := by
      simpa using hget.symm
    refine ⟨N.length - 1, by omega, j, l, 0, ?_, ?_, ?_, ?_⟩
    · rw [hrp] at hj
      simpa using hj
    · rw [hget] at hl
      simp only [Nat.sub_zero] at hl
      omega
    · rw [e1]
      omega
    · rw [hrow3', e1, e2]
      congr 1
      ring
  · simp only [if_neg hd0, List.mem_map] at hrow3
    rcases hrow3 with ⟨lo, hlo, hrow4⟩
    rw [List.mem_range] at hlo
    refine ⟨N.length - 1 - dr, by omega, j, l, lo, ?_, ?_, ?_, ?_⟩
    · rw [hrp] at hj
      exact hj
    · rw [hget] at hl
      omega
    · rw [hlp] at hlo
      exact hlo
    · rw [← hrow4, hlp, hget]
      congr 1
      ring

lemma colNnz_append (r1 r2 : List (List (Nat × Int))) (c : Nat) :
    colNnz (r1 ++ r2) c = colNnz r1 c + colNnz r2 c := by
  simp [colNnz]

lemma colNnz_flatMap_range (g : Nat → List (List (Nat × Int))) (k c : Nat) :
    colNnz ((List.range k).flatMap g) c = ∑ i in Finset.range k, colNnz (g i) c := by
  induction k with
  | zero => simp [colNnz]
  | succ k ih =>
      rw [List.range_succ, List.flatMap_append, colNnz_append, ih,
        Finset.sum_range_succ]
      simp [colNnz]

lemma stencil_filter_length (b s c : Nat) :
    ((stencilRow b s).filter (fun e => e.1 = c)).length =
      (if b = c then 1 else 0) + (if b + s = c then 1 else 0) +
        (if b + 2 * s = c then 1 else 0) := by
  simp only [stencilRow, List.filter_cons, List.filter_nil, decide_eq_true_eq]
  split_ifs <;> simp

lemma colNnz_map_stencil (L : List Nat) (s c : Nat) :
    colNnz (L.map (fun b => stencilRow b s)) c =
      L.countP (fun b => b = c) + L.countP (fun b => b + s = c) +
        L.countP (fun b => b + 2 * s = c) := by
  induction L with
  | nil => simp [colNnz]
  | cons a L ih =>
      have hcons : ∀ (x : List (Nat × Int)) (rs : List (List (Nat × Int))),
          colNnz (x :: rs) c = (x.filter (fun e => e.1 = c)).length + colNnz rs c := by
        intro x rs
        simp [colNnz]
      rw [List.map_cons, hcons, ih, stencil_filter_length, List.countP_cons,
        List.countP_cons, List.countP_cons]
      simp only [decide_eq_true_eq]
      split_ifs <;> omega

lemma countP_le_one_of_pairwise_lt (p : Nat → Bool) (L : List Nat)
    (hL : L.Pairwise (· < ·)) (hp : ∀ a b, p a = true → p b = true → a = b) :
    L.countP p ≤ 1 := by
  induction L with
  | nil => simp
  | cons a L ih =>
      rw [List.countP_cons]
      rcases List.pairwise_cons.mp hL with ⟨ha, hL'⟩
      by_cases hpa : p a = true
      · have hzero : L.countP p = 0 := by
          rw [List.countP_eq_zero]
          intro b hb hpb
          exact absurd (hp a b hpa hpb) (Nat.ne_of_lt (ha b hb))
        simp [hzero, hpa]
      · simp only [hpa]
        simpa using ih hL'

lemma pairwise_lt_flatMap_range (g : Nat → List Nat) (k : Nat)
    (h1 : ∀ j, (g j).Pairwise (· < ·))
    (h2 : ∀ j1 j2, j1 < j2 → ∀ a ∈ g j1, ∀ b ∈ g j2, a < b) :
    ((List.range k).flatMap g).Pairwise (· < ·) := by
  induction k with
  | zero => simp
  | succ k ih =>
      rw [List.range_succ, List.flatMap_append, List.pairwise_append]
      refine ⟨ih, ?_, ?_⟩
      · have hk : ([k].flatMap g) = g k := by simp
        rw [hk]
        exact h1 k
      · intro a ha b hb
        rcases List.mem_flatMap.mp ha with ⟨j, hj, haj⟩
        rw [List.mem_range] at hj
        have hb' : b ∈ g k := by simpa using hb
        exact h2 j k hj a haj b hb'

lemma blockRows_eq_map_stencil (dims : List Nat) (d : Nat) :
    blockRows dims d =
      (blockBases dims d).map (fun b => stencilRow b (leftProd dims d)) := by
  unfold blockRows blockBases
  by_cases hd : d = 0
  · subst hd
    have hlp : leftProd dims 0 = 1 := rfl
    simp [hlp, List.map_flatMap, List.range_succ, Function.comp_def]
  · simp [hd, List.map_flatMap, List.map_map, Function.comp_def]

lemma blockBases_pairwise (dims : List Nat) (d : Nat) :
    (blockBases dims d).Pairwise (· < ·) := by
  unfold blockBases
  apply pairwise_lt_flatMap_range
  · intro j
    apply pairwise_lt_flatMap_range
    · intro l
      refine List.pairwise_map.mpr ?_
      exact (List.pairwise_lt_range _).imp fun h => Nat.add_lt_add_left h _
    · intro l1 l2 hl a ha b hb
      simp only [List.mem_map, List.mem_range] at ha hb
      rcases ha with ⟨n1, hn1, rfl⟩
      rcases hb with ⟨n2, hn2, rfl⟩
      have e1 : (l1 + 1) * leftProd dims d = l1 * leftProd dims d + leftProd dims d := by
        rw [Nat.add_mul, Nat.one_mul]
      have e2 : (l1 + 1) * leftProd dims d ≤ l2 * leftProd dims d :=
        Nat.mul_le_mul_right _ (by omega)
      omega
  · intro j1 j2 hj a ha b hb
    simp only [List.mem_flatMap, List.mem_map, List.mem_range] at ha hb
    rcases ha with ⟨l1, hl1, n1, hn1, rfl⟩
    rcases hb with ⟨l2, hl2, n2, hn2, rfl⟩
    have e1 : (l1 + 1) * leftProd dims d = l1 * leftProd dims d + leftProd dims d := by
      rw [Nat.add_mul, Nat.one_mul]
    have e2 : (l1 + 1) * leftProd dims d ≤ (dims.getD d 0) * leftProd dims d :=
      Nat.mul_le_mul_right _ (by omega)
    have e3 : (dims.getD d 0) * leftProd dims d = leftProd dims d * dims.getD d 0 :=
      Nat.mul_comm _ _
    have e4 : (j1 + 1) * (leftProd dims d * dims.getD d 0) =
        j1 * (leftProd dims d * dims.getD d 0) + leftProd dims d * dims.getD d 0 := by
      rw [Nat.add_mul, Nat.one_mul]
    have e5 : (j1 + 1) * (leftProd dims d * dims.getD d 0) ≤
        j2 * (leftProd dims d * dims.getD d 0) :=
      Nat.mul_le_mul_right _ (by omega)
    omega

lemma colNnz_blockRows_le (dims : List Nat) (d : Nat) (c : Nat) :
    colNnz (blockRows dims d) c ≤ 3 := by
  rw [blockRows_eq_map_stencil, colNnz_map_stencil]
  have hpw := blockBases_pairwise dims d
  have u1 : (blockBases dims d).countP (fun b => b = c) ≤ 1 := by
    refine countP_le_one_of_pairwise_lt _ _ hpw ?_
    intro a b ha hb
    simp only [decide_eq_true_eq] at ha hb
    omega
  have u2 : (blockBases dims d).countP (fun b => b + leftProd dims d = c) ≤ 1 := by
    refine countP_le_one_of_pairwise_lt _ _ hpw ?_
    intro a b ha hb
    simp only [decide_eq_true_eq] at ha hb
    omega
  have u3 : (blockBases dims d).countP (fun b => b + 2 * leftProd dims d = c) ≤ 1 := by
    refine countP_le_one_of_pairwise_lt _ _ hpw ?_
    intro a b ha hb
    simp only [decide_eq_true_eq] at ha hb
    omega
  omega

lemma transpose_mulVec_dotProduct {m n : Nat} (B : Matrix (Fin m) (Fin n) ℚ)
    (u : Fin m → ℚ) (w : Fin n → ℚ) : (Bᵀ *ᵥ u) ⬝ᵥ w = u ⬝ᵥ (B *ᵥ w) := by
  rw [Matrix.mulVec_transpose, ← Matrix.dotProduct_mulVec]

lemma dot_self_nonneg {k : Nat} (v : Fin k → ℚ) : 0 ≤ v ⬝ᵥ v := by
  simp only [Matrix.dotProduct]
  apply Finset.sum_nonneg
  intro i _
  exact mul_self_nonneg _

lemma dot_sub_sub {k : Nat} (a b : Fin k → ℚ) :
    (a - b) ⬝ᵥ (a - b) = a ⬝ᵥ a - 2 * (a ⬝ᵥ b) + b ⬝ᵥ b := by
  rw [Matrix.sub_dotProduct, Matrix.dotProduct_sub, Matrix.dotProduct_sub,
    Matrix.dotProduct_comm b a]
  ring

lemma dot_add_add {k : Nat} (a b : Fin k → ℚ) :
    (a + b) ⬝ᵥ (a + b) = a ⬝ᵥ a + 2 * (a ⬝ᵥ b) + b ⬝ᵥ b := by
  rw [Matrix.add_dotProduct, Matrix.dotProduct_add, Matrix.dotProduct_add,
    Matrix.dotProduct_comm b a]
  ring

/-- Residual expansion after shifting the argument by `t • v`. -/
lemma residual_shift {m n : Nat} (B : Matrix (Fin m) (Fin n) ℚ) (y : Fin m → ℚ)
    (x0 : Fin n → ℚ) (t : ℚ) (v : Fin n → ℚ) :
    (B *ᵥ (x0 - t • v) - y) ⬝ᵥ (B *ᵥ (x0 - t • v) - y) =
      (B *ᵥ x0 - y) ⬝ᵥ (B *ᵥ x0 - y) - 2 * t * ((B *ᵥ v) ⬝ᵥ (B *ᵥ x0 - y)) +
        t * t * ((B *ᵥ v) ⬝ᵥ (B *ᵥ v)) := by
  have hres : B *ᵥ (x0 - t • v) - y = (B *ᵥ x0 - y) - t • (B *ᵥ v) := by
    rw [Matrix.mulVec_sub, Matrix.mulVec_smul]
    abel
  rw [hres, dot_sub_sub (B *ᵥ x0 - y) (t • (B *ᵥ v)), Matrix.dotProduct_smul,
    smul_eq_mul, Matrix.smul_dotProduct, Matrix.dotProduct_smul, smul_eq_mul,
    smul_eq_mul, Matrix.dotProduct_comm (B *ᵥ x0 - y) (B *ᵥ v)]
  ring

/-- A quadratic `t * t * cc - 2 * t * q` that is non-negative for every
`t`, with `cc ≥ 0` and `q = 0` forced when `cc = 0`, forces `q = 0`. -/
lemma quadratic_nonneg_zero (q cc : ℚ) (hcnn : 0 ≤ cc)
    (hq : ∀ t : ℚ, 0 ≤ t * t * cc - 2 * t * q) (hc0 : cc = 0 → q = 0) : q = 0 := by
  rcases eq_or_lt_of_le hcnn with h0 | hcpos
  · exact hc0 h0.symm
  · have h1 := hq (q / cc)
    have hne : cc ≠ 0 := ne_of_gt hcpos
    have h2 : q / cc * (q / cc) * cc - 2 * (q / cc) * q = -(q * q) / cc := by
      field_simp
      ring
    rw [h2] at h1
    have h3 : q * q ≤ 0 := by
      by_contra hpos'
      push_neg at hpos'
      have : -(q * q) / cc < 0 := div_neg_of_neg_of_pos (by linarith) hcpos
      linarith
    exact mul_self_eq_zero.mp (le_antisymm h3 (mul_self_nonneg q))

/-- A least-squares solution satisfies the normal equations. -/
lemma least_squares_normal_equations {m n : Nat} (B : Matrix (Fin m) (Fin n) ℚ)
    (y : Fin m → ℚ) (xls : Fin n → ℚ) (hls : isLeastSquaresSolution B y xls) :
    (Bᵀ * B) *ᵥ xls = Bᵀ *ᵥ y := by
  have hcross : (B *ᵥ (Bᵀ *ᵥ (B *ᵥ xls - y))) ⬝ᵥ (B *ᵥ xls - y) =
      (Bᵀ *ᵥ (B *ᵥ xls - y)) ⬝ᵥ (Bᵀ *ᵥ (B *ᵥ xls - y)) := by
    rw [Matrix.dotProduct_comm, ← transpose_mulVec_dotProduct]
  have hqzero : (Bᵀ *ᵥ (B *ᵥ xls - y)) ⬝ᵥ (Bᵀ *ᵥ (B *ᵥ xls - y)) = 0 := by
    apply quadratic_nonneg_zero _
      ((B *ᵥ (Bᵀ *ᵥ (B *ᵥ xls - y))) ⬝ᵥ (B *ᵥ (Bᵀ *ᵥ (B *ᵥ xls - y))))
      (dot_self_nonneg _)
    · intro t
      have hz := hls (xls - t • (Bᵀ *ᵥ (B *ᵥ xls - y)))
      rw [residual_shift, hcross] at hz
      linarith
    · intro hc0
      have hbv : B *ᵥ (Bᵀ *ᵥ (B *ᵥ xls - y)) = 0 :=
        Matrix.dotProduct_self_eq_zero.mp hc0
      rw [← hcross, hbv, Matrix.zero_dotProduct]
  have hveq : Bᵀ *ᵥ (B *ᵥ xls - y) = 0 :=
    Matrix.dotProduct_self_eq_zero.mp hqzero
  rw [Matrix.mulVec_sub, Matrix.mulVec_mulVec] at hveq
  exact sub_eq_zero.mp hveq

/-! ## Claim C2: system assembly per smoothing mode -/

/-- C2: for every design matrix `B`, target matrix `bmat` and `alpha ≥ 0`,
`computeControlPoints` assembles exactly the spec's system for each mode:
NONE leaves `(B, bmat)` unchanged; IDENTITY produces
`A = Bᵗ*B + alpha*I` (identity of basis-function dimension) and
`rhs = Bᵗ*bmat`; PSPLINE produces `A = Bᵗ*W*B + alpha*Dᵗ*D` and
`rhs = Bᵗ*W*bmat` with `W` the `numSamples × numSamples` identity, which
therefore simplifies to `Bᵗ*B + alpha*Dᵗ*D` and `Bᵗ*bmat`. -/
theorem C2_system_assembly {m n p r : Nat} (B : Matrix (Fin m) (Fin n) ℚ)
    (bmat : Matrix (Fin m) (Fin p) ℚ) (alpha : ℚ) (halpha : 0 ≤ alpha)
    (D : Matrix (Fin r) (Fin n) ℚ) :
    assembledSystemNone B bmat = (B, bmat) ∧
    assembledSystemIdentity B bmat alpha =
      (Bᵀ * B + alpha • (1 : Matrix (Fin n) (Fin n) ℚ), Bᵀ * bmat) ∧
    assembledSystemPspline B bmat alpha D =
      (Bᵀ * (1 : Matrix (Fin m) (Fin m) ℚ) * B + alpha • (Dᵀ * D),
        Bᵀ * (1 : Matrix (Fin m) (Fin m) ℚ) * bmat) ∧
    assembledSystemPspline B bmat alpha D =
      (Bᵀ * B + alpha • (Dᵀ * D), Bᵀ * bmat) :=
  ⟨rfl, rfl, rfl, by simp [assembledSystemPspline, Matrix.mul_one]⟩

/-- Witness for C2 at a concrete input. -/
theorem C2_system_assembly_witness :
    (0 : ℚ) ≤ 1 ∧
    assembledSystemIdentity (1 : Matrix (Fin 1) (Fin 1) ℚ) (1 : Matrix (Fin 1) (Fin 1) ℚ) 1 =
      ((1 : Matrix (Fin 1) (Fin 1) ℚ)ᵀ * 1 + (1 : ℚ) • (1 : Matrix (Fin 1) (Fin 1) ℚ),
        (1 : Matrix (Fin 1) (Fin 1) ℚ)ᵀ * 1) :=
  ⟨by norm_num, (C2_system_assembly 1 1 1 (by norm_num) (1 : Matrix (Fin 1) (Fin 1) ℚ)).2.1⟩

/-! ## Claim C8: default degrees -/

/-- C8: without explicitly configured degrees, the per-dimension degree
used by fit is `min(3, samples - 1)` in each of the `dimX` dimensions: at
most 3, and never exceeding the number of available samples minus one. -/
theorem C8_default_degrees (dimX samples : Nat) :
    (defaultDegrees dimX samples).length = dimX ∧
    ∀ deg ∈ defaultDegrees dimX samples,
      deg = min 3 (samples - 1) ∧ deg ≤ 3 ∧ deg ≤ samples - 1 := by
  refine ⟨by simp [defaultDegrees], ?_⟩
  intro deg hdeg
  simp only [defaultDegrees, List.mem_replicate] at hdeg
  refine ⟨hdeg.2, ?_, ?_⟩ <;> omega

/-- Witness for C8 with two dimensions and two samples (degree capped to 1). -/
theorem C8_default_degrees_witness :
    1 ∈ defaultDegrees 2 2 ∧ (1 = min 3 (2 - 1) ∧ 1 ≤ 3 ∧ 1 ≤ 2 - 1) :=
  ⟨by decide, (C8_default_degrees 2 2).2 1 (by decide)⟩

/-! ## Claim C4: solver dispatch -/

/-- C4: below 100 equations only the dense QR solve runs (so 99 equations
takes the dense path); from 100 on, the sparse LU solve is attempted first
and the dense solve runs exactly when the sparse attempt fails;
`SolveFailure` is raised iff the dense solve ran and failed, and it is the
only error the solve step can produce. -/
theorem C4_solver_dispatch (numEquations : Nat) (sparseOk denseOk : Bool) :
    (numEquations < 100 →
      (solveStep numEquations sparseOk denseOk).1 = [FitEvent.denseSolve]) ∧
    (100 ≤ numEquations →
      (solveStep numEquations sparseOk denseOk).1.head? = some FitEvent.sparseSolve ∧
      (FitEvent.denseSolve ∈ (solveStep numEquations sparseOk denseOk).1 ↔ sparseOk = false)) ∧
    ((solveStep numEquations sparseOk denseOk).2 = Except.error BuilderError.solveFailure ↔
      FitEvent.denseSolve ∈ (solveStep numEquations sparseOk denseOk).1 ∧ denseOk = false) ∧
    (∀ e, (solveStep numEquations sparseOk denseOk).2 = Except.error e →
      e = BuilderError.solveFailure) := by
  unfold solveStep
  by_cases h : numEquations < 100 <;> cases sparseOk <;> cases denseOk <;>
    simp [h] <;> omega

/-- Witness for C4: a 99-equation system takes the dense path directly. -/
theorem C4_solver_dispatch_witness :
    (solveStep 99 true true).1 = [FitEvent.denseSolve] :=
  (C4_solver_dispatch 99 true true).1 (by norm_num)

/-! ## Claim C3: PSPLINE needs at least three basis functions per dimension -/

/-- C3: a PSPLINE fit whose constructed B-spline has a dimension with
fewer than 3 basis functions fails with `InvalidConfiguration`; when every
dimension has at least 3, that error is never raised. -/
theorem C3_pspline_requires_three_basis_functions (cfg : FitConfig) (ext : FitExternals)
    (alpha : ℚ) (hdx : ext.dataDimX = cfg.dimX) (hdy : ext.dataDimY = cfg.dimY)
    (halpha : 0 ≤ alpha) (hdeg : cfg.dimX = cfg.degreesLength) :
    ((∃ c ∈ ext.numBasisFunctionsPerVariable, c < 3) →
      (fit cfg ext Smoothing.PSPLINE alpha).2 = Except.error BuilderError.invalidConfiguration) ∧
    ((∀ c ∈ ext.numBasisFunctionsPerVariable, 3 ≤ c) →
      (fit cfg ext Smoothing.PSPLINE alpha).2 ≠ Except.error BuilderError.invalidConfiguration) := by
  have hlt : ¬ alpha < 0 := not_lt.mpr halpha
  constructor
  · intro hbad
    have hany : ext.numBasisFunctionsPerVariable.any (fun c => c < 3) = true := by
      rcases hbad with ⟨c, hc, hc3⟩
      exact List.any_eq_true.mpr ⟨c, hc, by simpa using hc3⟩
    simp [fit, computeControlPointsFlow, hdx, hdy, hlt, hdeg, hany]
  · intro hgood
    have hany : ext.numBasisFunctionsPerVariable.any (fun c => c < 3) = false := by
      simp only [List.any_eq_false, decide_eq_true_eq]
      intro c hc
      exact not_lt.mpr (hgood c hc)
    rcases solveStep_result_cases (totalBasisFunctions ext) ext.sparseSolveSucceeds
        ext.denseSolveSucceeds with hs | hs <;>
      simp [fit, computeControlPointsFlow, hdx, hdy, hlt, hdeg, hany, hs]

/-- Witness for C3: one dimension with only 2 basis functions. -/
theorem C3_witness :
    (fit ⟨1, 1, 1⟩ ⟨1, 1, 5, [2], true, true⟩ Smoothing.PSPLINE 1).2 =
      Except.error BuilderError.invalidConfiguration :=
  (C3_pspline_requires_three_basis_functions ⟨1, 1, 1⟩ ⟨1, 1, 5, [2], true, true⟩ 1
    rfl rfl (by norm_num) rfl).1 ⟨2, by decide, by decide⟩

/-! ## Claim C10: the PSPLINE check does not depend on alpha -/

/-- C10: under PSPLINE the minimum-basis-function check is enforced for
every non-negative `alpha`: the fit fails with `InvalidConfiguration`
whenever some dimension has fewer than 3 basis functions, and the outcome
equals the outcome at `alpha = 0`. -/
theorem C10_pspline_check_ignores_alpha (cfg : FitConfig) (ext : FitExternals)
    (hdx : ext.dataDimX = cfg.dimX) (hdy : ext.dataDimY = cfg.dimY)
    (hdeg : cfg.dimX = cfg.degreesLength)
    (hbad : ∃ c ∈ ext.numBasisFunctionsPerVariable, c < 3) :
    ∀ alpha : ℚ, 0 ≤ alpha →
      (fit cfg ext Smoothing.PSPLINE alpha).2 = Except.error BuilderError.invalidConfiguration ∧
      (fit cfg ext Smoothing.PSPLINE alpha).2 = (fit cfg ext Smoothing.PSPLINE 0).2 := by
  intro alpha halpha
  have hany : ext.numBasisFunctionsPerVariable.any (fun c => c < 3) = true := by
    rcases hbad with ⟨c, hc, hc3⟩
    exact List.any_eq_true.mpr ⟨c, hc, by simpa using hc3⟩
  have hlt : ¬ alpha < 0 := not_lt.mpr halpha
  constructor <;>
    simp [fit, computeControlPointsFlow, hdx, hdy, hlt, hdeg, hany]

/-- Witness for C10 at `alpha = 0`. -/
theorem C10_witness :
    (fit ⟨1, 1, 1⟩ ⟨1, 1, 5, [2], true, true⟩ Smoothing.PSPLINE 0).2 =
      Except.error BuilderError.invalidConfiguration :=
  ((C10_pspline_check_ignores_alpha ⟨1, 1, 1⟩ ⟨1, 1, 5, [2], true, true⟩ rfl rfl rfl
    ⟨2, by decide, by decide⟩) 0 le_rfl).1

/-! ## Claim C5: where errors occur in the pipeline -/

/-- C5 counterexample: the claim says every validation error — including
`InvalidConfiguration` — is raised before any matrix is constructed.  On a
PSPLINE fit with a 2-basis-function dimension, the basis matrix has
already been assembled (line 78 of the source) before the difference
matrix builder throws `InvalidConfiguration` (line 235). -/
theorem C5_counterexample :
    (fit ⟨1, 1, 1⟩ ⟨1, 1, 5, [2], true, true⟩ Smoothing.PSPLINE 0).2 =
      Except.error BuilderError.invalidConfiguration ∧
    FitEvent.basisMatrix ∈ (fit ⟨1, 1, 1⟩ ⟨1, 1, 5, [2], true, true⟩ Smoothing.PSPLINE 0).1 := by
  decide

/-- C5 amended: `DimensionMismatch`, `InvalidParameter` and
`InconsistentConfiguration` are raised before any work is performed;
`InvalidConfiguration` is raised after the knot vectors and the basis
matrix are built but before the difference matrix and any solve attempt;
`SolveFailure` happens only at a dense solve attempt and is the only
error possible once a solver has been attempted. -/
theorem C5_error_phases (cfg : FitConfig) (ext : FitExternals) (smoothing : Smoothing)
    (alpha : ℚ) :
    ((fit cfg ext smoothing alpha).2 = Except.error BuilderError.dimensionMismatch ∨
     (fit cfg ext smoothing alpha).2 = Except.error BuilderError.invalidParameter ∨
     (fit cfg ext smoothing alpha).2 = Except.error BuilderError.inconsistentConfiguration →
      (fit cfg ext smoothing alpha).1 = []) ∧
    ((fit cfg ext smoothing alpha).2 = Except.error BuilderError.invalidConfiguration →
      (fit cfg ext smoothing alpha).1 = [FitEvent.knotVectors, FitEvent.basisMatrix]) ∧
    ((fit cfg ext smoothing alpha).2 = Except.error BuilderError.solveFailure →
      FitEvent.denseSolve ∈ (fit cfg ext smoothing alpha).1) ∧
    (∀ e, (fit cfg ext smoothing alpha).2 = Except.error e →
      FitEvent.sparseSolve ∈ (fit cfg ext smoothing alpha).1 ∨
        FitEvent.denseSolve ∈ (fit cfg ext smoothing alpha).1 →
      e = BuilderError.solveFailure) := by
  by_cases h1 : ext.dataDimX ≠ cfg.dimX
  · simp [fit, h1]
  by_cases h2 : ext.dataDimY ≠ cfg.dimY
  · simp [fit, h1, h2]
  by_cases h3 : alpha < 0
  · simp [fit, h1, h2, h3]
  by_cases h4 : cfg.dimX ≠ cfg.degreesLength
  · simp [fit, h1, h2, h3, h4]
  have hfit : fit cfg ext smoothing alpha =
      (FitEvent.knotVectors :: (computeControlPointsFlow ext smoothing).1,
        (computeControlPointsFlow ext smoothing).2) := by
    simp [fit, h1, h2, h3, h4]
  obtain ⟨hp1, hp2, hp3⟩ := computeControlPointsFlow_phases ext smoothing
  rw [hfit]
  refine ⟨?_, ?_, ?_, ?_⟩
  · intro h
    rcases h with h | h | h <;>
      rcases hp3 _ (by simpa using h) with he | he <;> simp_all
  · intro h
    simp only at h
    rw [hp1 h]
  · intro h
    simp only at h
    exact List.mem_cons_of_mem _ (hp2 h)
  · intro e he hmem
    simp only at he
    rcases hp3 e he with he' | he'
    · subst he'
      have := hp1 he
      rw [this] at hmem
      simp at hmem
    · exact he'

/-- Witness for C5: a dimension mismatch produces no work at all. -/
theorem C5_error_phases_witness :
    (fit ⟨2, 1, 2⟩ ⟨1, 1, 5, [5], true, true⟩ Smoothing.NONE 0).1 = [] :=
  (C5_error_phases ⟨2, 1, 2⟩ ⟨1, 1, 5, [5], true, true⟩ Smoothing.NONE 0).1
    (Or.inl (by decide))

/-! ## Claim C1 counterexample -/

/-- C1 counterexample: with counts `[3, 4]` the built matrix contains the
row with entries at columns `(0, 4, 8)` — stride 4, dimension 1's stride
in a row-major flattening of the ORIGINAL count list — but the strides of
a row-major flattening of the REVERSED count list are 1 and 3, so no
dimension `d` and base make this row match the claimed form. -/
theorem C1_counterexample :
    [((0 : Nat), (1 : Int)), (4, -2), (8, 1)] ∈ finiteDifferenceRows [3, 4] ∧
    ∀ d, d < 2 → ∀ base,
      [((0 : Nat), (1 : Int)), (4, -2), (8, 1)] ≠
        stencilRow base (claimedReversedStride [3, 4] d) := by
  refine ⟨by decide, ?_⟩
  intro d hd base h
  interval_cases d <;> simp [stencilRow, claimedReversedStride] at h <;> omega

/-- C1 (amended): for counts `n_1..n_k` each at least 3, the matrix has
`sum over d of (n_d - 2) * (product of the other counts)` rows; every row
is a `1, -2, 1` stencil along some dimension `d` at columns
`base, base + stride_d, base + 2 * stride_d`, where `stride_d` is
dimension `d`'s stride in the row-major flattening of the ORIGINAL count
list (the product of the counts after `d`; the claim's "row-major
flattening over the reversed dimension list" gives the wrong strides, see
the counterexample) and `base = hi * (n_d * stride_d) + l * stride_d + lo`
is the flattened index of the leftmost stencil position; and a single
dimension with `n = 5` yields exactly the rows `(i,1), (i+1,-2), (i+2,1)`
for `i = 0, 1, 2`. -/
theorem C1_difference_matrix_structure (N : List Nat) (h3 : ∀ c ∈ N, 3 ≤ c) :
    (finiteDifferenceRows N).length = secondOrderRowCount N ∧
    (∀ row ∈ finiteDifferenceRows N, ∃ d, d < N.length ∧ ∃ hi l lo,
      hi < leftProd N d ∧ l + 2 < N.getD d 0 ∧ lo < rightProd N d ∧
      0 < rightProd N d ∧
      row = stencilRow (hi * (N.getD d 0 * rightProd N d) + l * rightProd N d + lo)
        (rightProd N d)) ∧
    finiteDifferenceRows [5] = [stencilRow 0 1, stencilRow 1 1, stencilRow 2 1] := by
  refine ⟨finiteDifferenceRows_length N, ?_, by decide⟩
  intro row hrow
  rcases mem_finiteDifferenceRows N row hrow with ⟨d, hd, hi, l, lo, h1, h2, hlo, heq⟩
  refine ⟨d, hd, hi, l, lo, h1, h2, hlo, ?_, heq⟩
  unfold rightProd
  exact List.prod_pos fun a ha =>
    lt_of_lt_of_le (by omega) (h3 a (List.mem_of_mem_drop ha))

/-- Witness for C1 at the two-dimensional counts `[3, 4]`. -/
theorem C1_witness :
    (∀ c ∈ [3, 4], 3 ≤ c) ∧
    (finiteDifferenceRows [3, 4]).length = secondOrderRowCount [3, 4] :=
  ⟨by decide, (C1_difference_matrix_structure [3, 4] (by decide)).1⟩

/-! ## Claim C9 counterexample -/

/-- C9 counterexample: with a single dimension of 5 basis functions,
column 2 of the difference matrix receives three nonzero entries — it is
the right, center and left element of the stencils starting at 0, 1 and 2
— exceeding the claimed bound `2 * dim_x = 2`. -/
theorem C9_counterexample :
    colNnz (finiteDifferenceRows [5]) 2 = 3 ∧
    ¬ colNnz (finiteDifferenceRows [5]) 2 ≤ 2 * [5].length := by
  decide

/-- C9 (amended): for counts each at least 3 over `dim_x` dimensions,
every column of the second-order finite-difference matrix holds at most
`3 * dim_x` nonzero entries (at most three per dimension: a column can be
the left, center and right element of three different stencils of the
same dimension; the source comment's bound of two per dimension is the
part the counterexample refutes). -/
theorem C9_column_nnz_bound (N : List Nat) (h3 : ∀ c ∈ N, 3 ≤ c) (col : Nat) :
    colNnz (finiteDifferenceRows N) col ≤ 3 * N.length := by
  unfold finiteDifferenceRows
  rw [colNnz_flatMap_range]
  calc ∑ i in Finset.range N.reverse.length, colNnz (blockRows N.reverse i) col
      ≤ ∑ _i in Finset.range N.reverse.length, 3 :=
        Finset.sum_le_sum fun i _ => colNnz_blockRows_le N.reverse i col
    _ = 3 * N.length := by
        simp [Finset.sum_const, Finset.card_range, Nat.mul_comm]

/-- Witness for C9 at counts `[5]`, column 2 (where the bound is tight
per dimension). -/
theorem C9_witness :
    (∀ c ∈ [5], 3 ≤ c) ∧ colNnz (finiteDifferenceRows [5]) 2 ≤ 3 * [5].length :=
  ⟨by decide, C9_column_nnz_bound [5] (by decide) 2⟩

/-! ## Claim C6: alpha = 0 degenerates to plain least squares -/

/-- C6: at `alpha = 0` the IDENTITY system is the normal-equations system
`(Bᵗ*B, Bᵗ*b)`, the PSPLINE system coincides with it (the penalty term
vanishes and `W` is the identity), and — with the external dense QR solve
modelled as returning a least-squares solution — solving either system is
equivalent to the NONE-mode least-squares fit of `(B, b)`: every solution
of the normal equations minimizes the NONE residual, and conversely, when
`B` has full column rank, the minimizer is unique and solves the normal
equations. -/
theorem C6_alpha_zero_least_squares {m n p r : Nat} (B : Matrix (Fin m) (Fin n) ℚ)
    (bmat : Matrix (Fin m) (Fin p) ℚ) (D : Matrix (Fin r) (Fin n) ℚ) :
    assembledSystemNone B bmat = (B, bmat) ∧
    assembledSystemIdentity B bmat 0 = (Bᵀ * B, Bᵀ * bmat) ∧
    assembledSystemPspline B bmat 0 D = assembledSystemIdentity B bmat 0 ∧
    (∀ (y : Fin m → ℚ) (x : Fin n → ℚ), (Bᵀ * B) *ᵥ x = Bᵀ *ᵥ y →
      isLeastSquaresSolution B y x) ∧
    (∀ (y : Fin m → ℚ) (x xls : Fin n → ℚ), (∀ v, B *ᵥ v = 0 → v = 0) →
      (Bᵀ * B) *ᵥ x = Bᵀ *ᵥ y → isLeastSquaresSolution B y xls → xls = x) := by
  refine ⟨rfl, ?_, ?_, ?_, ?_⟩
  · simp [assembledSystemIdentity]
  · simp [assembledSystemIdentity, assembledSystemPspline, Matrix.mul_one]
  · intro y x hx z
    have hres : B *ᵥ z - y = (B *ᵥ x - y) + B *ᵥ (z - x) := by
      rw [Matrix.mulVec_sub]
      abel
    have h1 : Bᵀ *ᵥ (B *ᵥ x - y) = 0 := by
      rw [Matrix.mulVec_sub, Matrix.mulVec_mulVec, hx, sub_self]
    have hortho : (B *ᵥ x - y) ⬝ᵥ (B *ᵥ (z - x)) = 0 := by
      have := transpose_mulVec_dotProduct B (B *ᵥ x - y) (z - x)
      rw [h1, Matrix.zero_dotProduct] at this
      exact this.symm
    rw [hres, dot_add_add, hortho]
    have := dot_self_nonneg (B *ᵥ (z - x))
    linarith
  · intro y x xls hinj hx hls
    have hnormal : (Bᵀ * B) *ᵥ xls = Bᵀ *ᵥ y :=
      least_squares_normal_equations B y xls hls
    have hker : (Bᵀ * B) *ᵥ (xls - x) = 0 := by
      rw [Matrix.mulVec_sub, hnormal, hx, sub_self]
    have hBd : B *ᵥ (xls - x) = 0 := by
      have hdd : (B *ᵥ (xls - x)) ⬝ᵥ (B *ᵥ (xls - x)) = 0 := by
        have h := transpose_mulVec_dotProduct B (B *ᵥ (xls - x)) (xls - x)
        rw [Matrix.mulVec_mulVec, hker, Matrix.zero_dotProduct] at h
        exact h.symm
      exact Matrix.dotProduct_self_eq_zero.mp hdd
    exact sub_eq_zero.mp (hinj _ hBd)

/-- Witness for C6: `B = [[1]]`, `y = [2]`; the normal-equation solution
`x = [2]` is the least-squares minimizer. -/
theorem C6_witness :
    ((!![(1 : ℚ)])ᵀ * !![(1 : ℚ)]) *ᵥ ![2] = (!![(1 : ℚ)])ᵀ *ᵥ ![2] ∧
    isLeastSquaresSolution !![(1 : ℚ)] ![2] ![2] := by
  have hsys : ((!![(1 : ℚ)])ᵀ * !![(1 : ℚ)]) *ᵥ ![2] = (!![(1 : ℚ)])ᵀ *ᵥ ![2] := by
    funext i
    fin_cases i
    simp [Matrix.mulVec, Matrix.dotProduct, Fin.sum_univ_one, Matrix.mul_apply]
  exact ⟨hsys,
    (C6_alpha_zero_least_squares !![(1 : ℚ)] !![(2 : ℚ)] !![(0 : ℚ)]).2.2.2.1 ![2] ![2] hsys⟩

/-! ## Claim C7: coefficient norm is non-increasing in alpha (IDENTITY) -/

/-- C7: for fixed data under IDENTITY smoothing, with
`0 ≤ alpha1 ≤ alpha2`, exact solutions `x1, x2` of the two regularized
systems, and determinism at equal weights (the solver is a deterministic
function of the system, so `alpha1 = alpha2` yields the same vector), the
squared L2 norm of the returned coefficient vector is non-increasing:
`x2 ⬝ x2 ≤ x1 ⬝ x1`; since the L2 norm is the square root of this dot
product, the norm itself is non-increasing. -/
theorem C7_identity_norm_monotone {m n : Nat} (B : Matrix (Fin m) (Fin n) ℚ)
    (y : Fin m → ℚ) (alpha1 alpha2 : ℚ) (x1 x2 : Fin n → ℚ)
    (h0 : 0 ≤ alpha1) (h12 : alpha1 ≤ alpha2)
    (hx1 : identitySystemA B alpha1 *ᵥ x1 = Bᵀ *ᵥ y)
    (hx2 : identitySystemA B alpha2 *ᵥ x2 = Bᵀ *ᵥ y)
    (hdet : alpha1 = alpha2 → x1 = x2) :
    x2 ⬝ᵥ x2 ≤ x1 ⬝ᵥ x1 := by
  rcases eq_or_lt_of_le h12 with heq | hlt
  · rw [hdet heq]
  · unfold identitySystemA at hx1 hx2
    have hsplit : Bᵀ * B + alpha2 • (1 : Matrix (Fin n) (Fin n) ℚ) =
        (Bᵀ * B + alpha1 • 1) + (alpha2 - alpha1) • 1 := by
      rw [sub_smul]
      abel
    have e2 : (Bᵀ * B + alpha1 • (1 : Matrix (Fin n) (Fin n) ℚ)) *ᵥ x2 +
        (alpha2 - alpha1) • x2 = Bᵀ *ᵥ y := by
      rw [hsplit, Matrix.add_mulVec, Matrix.smul_mulVec_assoc, Matrix.one_mulVec] at hx2
      exact hx2
    have hkey : (Bᵀ * B + alpha1 • (1 : Matrix (Fin n) (Fin n) ℚ)) *ᵥ (x1 - x2) =
        (alpha2 - alpha1) • x2 := by
      rw [Matrix.mulVec_sub, hx1, ← e2]
      abel
    have hquad : (alpha2 - alpha1) * (x2 ⬝ᵥ (x1 - x2)) =
        (B *ᵥ (x1 - x2)) ⬝ᵥ (B *ᵥ (x1 - x2)) + alpha1 * ((x1 - x2) ⬝ᵥ (x1 - x2)) := by
      calc (alpha2 - alpha1) * (x2 ⬝ᵥ (x1 - x2))
          = ((alpha2 - alpha1) • x2) ⬝ᵥ (x1 - x2) := by
            rw [Matrix.smul_dotProduct, smul_eq_mul]
        _ = ((Bᵀ * B + alpha1 • (1 : Matrix (Fin n) (Fin n) ℚ)) *ᵥ (x1 - x2)) ⬝ᵥ
              (x1 - x2) := by rw [hkey]
        _ = ((Bᵀ * B) *ᵥ (x1 - x2)) ⬝ᵥ (x1 - x2) +
              alpha1 * ((x1 - x2) ⬝ᵥ (x1 - x2)) := by
            rw [Matrix.add_mulVec, Matrix.add_dotProduct, Matrix.smul_mulVec_assoc,
              Matrix.one_mulVec, Matrix.smul_dotProduct, smul_eq_mul]
        _ = (B *ᵥ (x1 - x2)) ⬝ᵥ (B *ᵥ (x1 - x2)) +
              alpha1 * ((x1 - x2) ⬝ᵥ (x1 - x2)) := by
            rw [← Matrix.mulVec_mulVec, transpose_mulVec_dotProduct,
              Matrix.dotProduct_comm]
    have hnn1 : 0 ≤ (B *ᵥ (x1 - x2)) ⬝ᵥ (B *ᵥ (x1 - x2)) := dot_self_nonneg _
    have hnn2 : 0 ≤ (x1 - x2) ⬝ᵥ (x1 - x2) := dot_self_nonneg _
    have hpos : 0 < alpha2 - alpha1 := sub_pos.mpr hlt
    have hx2w : 0 ≤ x2 ⬝ᵥ (x1 - x2) := by
      nlinarith [hquad, hnn1, hnn2, mul_nonneg h0 hnn2]
    have hexp : x1 ⬝ᵥ x1 =
        x2 ⬝ᵥ x2 + 2 * (x2 ⬝ᵥ (x1 - x2)) + (x1 - x2) ⬝ᵥ (x1 - x2) := by
      have hx1w : x1 = x2 + (x1 - x2) := by abel
      calc x1 ⬝ᵥ x1 = (x2 + (x1 - x2)) ⬝ᵥ (x2 + (x1 - x2)) := by rw [← hx1w]
        _ = x2 ⬝ᵥ x2 + 2 * (x2 ⬝ᵥ (x1 - x2)) + (x1 - x2) ⬝ᵥ (x1 - x2) :=
            dot_add_add x2 (x1 - x2)
    linarith

/-- Witness for C7: `B = [[1]]`, `y = [1]`, `alpha1 = 0`, `alpha2 = 1`,
with solutions `x1 = [1]` and `x2 = [1/2]`. -/
theorem C7_witness :
    identitySystemA !![(1 : ℚ)] 0 *ᵥ ![1] = (!![(1 : ℚ)])ᵀ *ᵥ ![1] ∧
    identitySystemA !![(1 : ℚ)] 1 *ᵥ ![1/2] = (!![(1 : ℚ)])ᵀ *ᵥ ![1] ∧
    (![1/2] : Fin 1 → ℚ) ⬝ᵥ ![1/2] ≤ (![1] : Fin 1 → ℚ) ⬝ᵥ ![1] := by
  have h1 : identitySystemA !![(1 : ℚ)] 0 *ᵥ ![1] = (!![(1 : ℚ)])ᵀ *ᵥ ![1] := by
    funext i
    fin_cases i
    simp [identitySystemA, Matrix.mulVec, Matrix.dotProduct, Fin.sum_univ_one,
      Matrix.mul_apply, Matrix.one_apply]
  have h2 : identitySystemA !![(1 : ℚ)] 1 *ᵥ ![1/2] = (!![(1 : ℚ)])ᵀ *ᵥ ![1] := by
    funext i
    fin_cases i
    simp [identitySystemA, Matrix.mulVec, Matrix.dotProduct, Fin.sum_univ_one,
      Matrix.mul_apply, Matrix.one_apply]
    norm_num
  exact ⟨h1, h2, C7_identity_norm_monotone !![(1 : ℚ)] ![1] 0 1 ![1] ![1/2]
    (by norm_num) (by norm_num) h1 h2 (by norm_num)⟩

end Splinter
